import Mathlib

/-!
Verification development for the AKD storage manager
(`akd/src/storage/manager.rs`).

The mediator (`StorageManager`) composes a typed cache, an in-memory
transaction buffer and a backing store.  Its methods are asynchronous Rust
functions; we embed them shallowly as pure Lean functions whose extra
arguments stand for the responses of the external collaborators (the
backing store's answer to a query, the cache's hit-test answer, the
transaction buffer's lookup answer).  Byte strings are modelled as
`List Nat`, map types (`HashMap`) as association lists with last-write-wins
insertion, and `u64` fields as `Nat` (the code only compares epochs, it
never performs wrapping arithmetic on them).
-/

set_option autoImplicit false

namespace Akd

/-- Byte-string username label (`AkdLabel` wraps `Vec<u8>` in the source). -/
abbrev AkdLabel := List Nat

/-- Byte-string value (`AkdValue` wraps `Vec<u8>` in the source). -/
abbrev AkdValue := List Nat

/-- Modelled from the spec: `crate::TOMBSTONE` is a repository-level constant
byte pattern (its definition lives outside `src/`); the claims only depend on
it being a fixed constant, so we model it as the empty byte string. -/
def TOMBSTONE : AkdValue := []

/-- Node label of the tree (opaque to the mediator); modelled as `Nat`. -/
abbrev TreeLabel := Nat

/-- A user's value at a specific `(epoch, version)`
(`akd::storage::types::ValueState`). -/
structure ValueState where
  epoch : Nat
  version : Nat
  label : TreeLabel
  plaintext_val : AkdValue
  username : AkdLabel
  deriving DecidableEq, Repr

/-- Key for a `ValueState` record: `(username, epoch)`. -/
abbrev ValueStateKey := AkdLabel × Nat

/-- The closed record union handled by the mediator
(`akd::storage::types::DbRecord`).  `Azks` is the directory-metadata
record carrying `latest_epoch`; `TreeNode` payloads are opaque. -/
inductive DbRecord where
  | Azks (latest_epoch : Nat)
  | ValueState (vs : ValueState)
  | TreeNode (data : Nat)
  deriving DecidableEq, Repr

/-- Whether a record is the directory-metadata (`Azks`) variant. -/
def DbRecord.isAzks : DbRecord → Bool
  | .Azks _ => true
  | _ => false

/-- The closed error taxonomy (`akd::storage::StorageError`).  Messages are
modelled as plain strings; no claim depends on message contents. -/
inductive StorageError where
  | NotFound (msg : String)
  | Transaction (msg : String)
  | Connection (msg : String)
  | Other (msg : String)
  | SerializationError
  deriving DecidableEq, Repr

/-- Whether an error is the `NotFound` variant. -/
def StorageError.isNotFound : StorageError → Bool
  | .NotFound _ => true
  | _ => false

/-- The five user-state retrieval flags
(`akd::storage::types::ValueStateRetrievalFlag`). -/
inductive ValueStateRetrievalFlag where
  | SpecificVersion (v : Nat)
  | SpecificEpoch (e : Nat)
  | LeqEpoch (e : Nat)
  | MaxEpoch
  | MinEpoch
  deriving DecidableEq, Repr

/-- Write mode passed to the backing store's `batch_set`
(`akd::storage::DbSetState`). -/
inductive DbSetState where
  | General
  | TransactionCommit
  deriving DecidableEq, Repr

/-- Bag of all value states for one user (`akd::storage::types::KeyData`). -/
structure KeyData where
  states : List ValueState
  deriving DecidableEq, Repr

section Maps

variable {K V : Type} [DecidableEq K]

/-- Lookup in an association list (models `HashMap::get`). -/
def mapGet : List (K × V) → K → Option V
  | [], _ => none
  | (k', v') :: rest, k => if k' = k then some v' else mapGet rest k

/-- Insert-or-overwrite in an association list (models `HashMap::insert`,
last-write-wins). -/
def mapInsert : List (K × V) → K → V → List (K × V)
  | [], k, v => [(k, v)]
  | (k', v') :: rest, k, v =>
      if k' = k then (k, v) :: rest else (k', v') :: mapInsert rest k v

@[simp]
theorem mapGet_nil (k : K) : mapGet ([] : List (K × V)) k = none := rfl

@[simp]
theorem mapGet_insert_self (m : List (K × V)) (k : K) (v : V) :
    mapGet (mapInsert m k v) k = some v := by
  induction m with
  | nil => simp [mapInsert, mapGet]
  | cons hd tl ih =>
      obtain ⟨k', v'⟩ := hd
      by_cases h : k' = k
      · simp [mapInsert, mapGet, h]
      · simp [mapInsert, mapGet, h, ih]

@[simp]
theorem mapGet_insert_ne (m : List (K × V)) (k k' : K) (v : V) (h : k ≠ k') :
    mapGet (mapInsert m k v) k' = mapGet m k' := by
  induction m with
  | nil => simp [mapInsert, mapGet, h]
  | cons hd tl ih =>
      obtain ⟨k₀, v₀⟩ := hd
      by_cases h₀ : k₀ = k
      · subst h₀
        simp [mapInsert, mapGet, h]
      · by_cases h₁ : k₀ = k'
        · simp [mapInsert, mapGet, h₀, h₁, Ne.symm h]
        · simp [mapInsert, mapGet, h₀, h₁, ih]

end Maps

/-- Translation of `StorageManager::compare_db_and_transaction_records`
(manager.rs lines 535-570): given the persisted record's epoch and a staged
transaction record, decide whether the transaction record overrides the
persisted one under the given retrieval flag. -/
def compare_db_and_transaction_records (state_epoch : Nat)
    (transaction_value : ValueState) (flag : ValueStateRetrievalFlag) :
    Option ValueState :=
  match flag with
  | .SpecificVersion _ => some transaction_value
  | .SpecificEpoch _ => some transaction_value
  | .LeqEpoch _ =>
      if transaction_value.epoch ≥ state_epoch then some transaction_value
      else none
  | .MaxEpoch =>
      if transaction_value.epoch ≥ state_epoch then some transaction_value
      else none
  | .MinEpoch =>
      if transaction_value.epoch ≤ state_epoch then some transaction_value
      else none

/-- Outcome of `StorageManager::get_user_state`: the returned value or error,
together with the record (if any) that was written into the cache on the way
out. -/
structure GetUserStateOutcome where
  result : Except StorageError ValueState
  cache_put : Option DbRecord
  deriving Repr

/-- Translation of `StorageManager::get_user_state` (manager.rs lines
402-447).  `db_result` is the backing store's answer to
`db.get_user_state(username, flag)`; `trans_active` is
`is_transaction_active()`; `transaction_value` is the transaction buffer's
answer to `transaction.get_user_state(username, flag)`; `cache_present`
records whether the mediator owns a cache.  A `NotFound` from the store is
folded to `none`; every other error short-circuits. -/
def get_user_state (db_result : Except StorageError ValueState)
    (trans_active : Bool) (transaction_value : Option ValueState)
    (flag : ValueStateRetrievalFlag) (cache_present : Bool) :
    GetUserStateOutcome :=
  let folded : Except StorageError (Option ValueState) :=
    match db_result with
    | .error (.NotFound _) => .ok none
    | .ok something => .ok (some something)
    | .error other => .error other
  match folded with
  | .error e => { result := .error e, cache_put := none }
  | .ok maybe_db_state =>
    let from_transaction : Option ValueState :=
      if trans_active then
        match transaction_value with
        | some tv =>
          match maybe_db_state with
          | some db_value =>
              compare_db_and_transaction_records db_value.epoch tv flag
          | none => some tv
        | none => none
      else none
    match from_transaction with
    | some record => { result := .ok record, cache_put := none }
    | none =>
      match maybe_db_state with
      | some state =>
          { result := .ok state
            cache_put :=
              if cache_present then some (DbRecord.ValueState state)
              else none }
      | none =>
          { result := .error (.NotFound "ValueState"), cache_put := none }

/-- Storage keys, generic in the source (`St::StorageKey`: hashable,
equality-comparable, cloneable); modelled as `Nat`. -/
abbrev StKey := Nat

/-- Modelled from the spec: the transaction buffer
(`akd::storage::transaction::Transaction`, outside `src/`).  Per section 4.D
it is a staging area with an Idle/Active state and a per-key last-write-wins
map of staged records. -/
structure Txn where
  active : Bool
  staged : List (StKey × DbRecord)
  deriving Repr

/-- Modelled from the spec: `Transaction::begin` returns true on the
Idle-to-Active transition and false (idempotent no-op) when already
Active. -/
def Txn.begin (t : Txn) : Bool × Txn :=
  if t.active then (false, t) else (true, { t with active := true })

/-- Modelled from the spec: `Transaction::get` yields a staged record only
while the transaction is Active. -/
def Txn.get (t : Txn) (k : StKey) : Option DbRecord :=
  if t.active then mapGet t.staged k else none

/-- Cache cleaner state.  Modelled from the spec: section 4.C gives the
cache's contract `disable_clean()` / `enable_clean()` — pausing and resuming
the background eviction sweep — which we model as a boolean pause flag
(`can_clean`).  Entry contents and timing are not modelled; read-path cache
answers are passed as parameters instead. -/
structure CacheCleaner where
  can_clean : Bool
  deriving Repr

/-- Modelled from the spec: pause the eviction sweep. -/
def CacheCleaner.disable_clean (_ : CacheCleaner) : CacheCleaner :=
  { can_clean := false }

/-- Modelled from the spec: resume the eviction sweep. -/
def CacheCleaner.enable_clean (_ : CacheCleaner) : CacheCleaner :=
  { can_clean := true }

/-- The slice of `StorageManager` state the transaction-lifecycle claims
observe: the transaction buffer and the optional cache's cleaner flag. -/
structure ManagerState where
  txn : Txn
  cache : Option CacheCleaner
  deriving Repr

/-- Translation of `StorageManager::begin_transaction` (manager.rs lines
160-170): call the buffer's begin, then unconditionally disable cache
cleaning when a cache is present, and return the buffer's flag. -/
def begin_transaction (s : ManagerState) : Bool × ManagerState :=
  let (started, txn') := s.txn.begin
  let cache' :=
    match s.cache with
    | some c => some c.disable_clean
    | none => none
  (started, { txn := txn', cache := cache' })

/-- Outcome of `StorageManager::commit_transaction`: the result, the batch
the cache received via `batch_put` (if any), the batch and mode the backing
store received via `batch_set` (if any), whether cache cleaning was
re-enabled, and how often the batch-set metric was incremented. -/
structure CommitOutcome where
  result : Except StorageError Unit
  cache_batch_put : Option (List DbRecord)
  db_batch_set : Option (List DbRecord × DbSetState)
  cache_enable_clean : Bool
  batch_set_metric : Nat
  deriving Repr

/-- Translation of `StorageManager::commit_transaction` (manager.rs lines
173-209).  `drain_result` is the transaction buffer's `commit_transaction()`
answer (the staged records, or an error when no transaction was active);
`db_response` is the backing store's answer to the `batch_set` call when one
is made. -/
def commit_transaction (drain_result : Except StorageError (List DbRecord))
    (cache_present : Bool) (db_response : Except StorageError Unit) :
    CommitOutcome :=
  match drain_result with
  | .error e =>
      { result := .error e, cache_batch_put := none, db_batch_set := none
        cache_enable_clean := false, batch_set_metric := 0 }
  | .ok records =>
    if records.isEmpty then
      { result := .ok (), cache_batch_put := none, db_batch_set := none
        cache_enable_clean := cache_present, batch_set_metric := 0 }
    else
      match records.getLast? with
      | some (DbRecord.Azks _) =>
          let put := if cache_present then some records else none
          match db_response with
          | .ok () =>
              { result := .ok (), cache_batch_put := put
                db_batch_set := some (records, DbSetState.TransactionCommit)
                cache_enable_clean := cache_present, batch_set_metric := 1 }
          | .error e =>
              { result := .error e, cache_batch_put := put
                db_batch_set := some (records, DbSetState.TransactionCommit)
                cache_enable_clean := cache_present, batch_set_metric := 0 }
      | _ =>
          { result := .error (.Transaction
              "The last record in the transaction log is NOT an Azks record")
            cache_batch_put := none, db_batch_set := none
            cache_enable_clean := cache_present, batch_set_metric := 0 }

/-- Translation of the state effects of `StorageManager::commit_transaction`
on the transaction buffer and cache cleaner: a successful drain deactivates
the buffer and clears it, then cleaning is re-enabled; a failed drain (no
active transaction) leaves everything unchanged because the `?` operator
returns before `enable_clean`. -/
def commit_transaction_state (s : ManagerState) : ManagerState :=
  if s.txn.active then
    { txn := { active := false, staged := [] }
      cache :=
        match s.cache with
        | some c => some c.enable_clean
        | none => none }
  else s

/-- Translation of the state effects of
`StorageManager::rollback_transaction` (manager.rs lines 212-220): a
successful `Transaction::rollback` deactivates and clears the buffer, then
cleaning is re-enabled; when no transaction is active the `?` operator
returns before `enable_clean`. -/
def rollback_transaction_state (s : ManagerState) : ManagerState :=
  if s.txn.active then
    { txn := { active := false, staged := [] }
      cache :=
        match s.cache with
        | some c => some c.enable_clean
        | none => none }
  else s

/-- The reachability invariant of the mediator's lifecycle: while a
transaction is active, cache cleaning is disabled (begin disables it, and
only commit/rollback — which deactivate the transaction — re-enable it). -/
def CleanInvariant (s : ManagerState) : Prop :=
  s.txn.active = true →
    match s.cache with
    | some c => c.can_clean = false
    | none => True

/-- Translation of `StorageManager::get` (manager.rs lines 288-314).
`cache_hit` is the cache's `hit_test` answer for the key and `db_result` the
backing store's `get` answer; the transaction buffer is consulted first when
a transaction is active. -/
def get (txn : Txn) (k : StKey) (cache_hit : Option DbRecord)
    (db_result : Except StorageError DbRecord) :
    Except StorageError DbRecord :=
  match (if txn.active then txn.get k else none) with
  | some result => .ok result
  | none =>
    match cache_hit with
    | some result => .ok result
    | none => db_result

/-- One pass of the `batch_get` loop over the requested ids (manager.rs
lines 332-351): each id is resolved against the transaction buffer (when
active) and then the cache; resolved records are appended to `map` and their
key is removed from `key_set`. -/
def batch_get_loop (trans_active : Bool) (txget : StKey → Option DbRecord)
    (cache_hit : StKey → Option DbRecord) (ids : List StKey)
    (map : List DbRecord) (key_set : List StKey) :
    List DbRecord × List StKey :=
  match ids with
  | [] => (map, key_set)
  | id :: rest =>
    match (if trans_active then txget id else none) with
    | some result =>
        batch_get_loop trans_active txget cache_hit rest (map ++ [result])
          (key_set.erase id)
    | none =>
      match cache_hit id with
      | some result =>
          batch_get_loop trans_active txget cache_hit rest (map ++ [result])
            (key_set.erase id)
      | none => batch_get_loop trans_active txget cache_hit rest map key_set

/-- Translation of `StorageManager::batch_get` (manager.rs lines 317-363),
projected onto the backing-store calls it issues: the empty input returns
early; otherwise the residual `key_set` (a `HashSet` seeded with the distinct
input keys, modelled as a deduplicated list) is sent to `db.batch_get` in a
single call only when it is non-empty. -/
def batch_get_db_calls (trans_active : Bool) (txget : StKey → Option DbRecord)
    (cache_hit : StKey → Option DbRecord) (ids : List StKey) :
    List (List StKey) :=
  if ids.isEmpty then []
  else
    let key_set := ids.dedup
    let residual :=
      (batch_get_loop trans_active txget cache_hit ids [] key_set).2
    if residual.isEmpty then [] else [residual]

/-- Whether a key is resolved locally on the `batch_get` path: by the
transaction buffer (consulted only when a transaction is active) or, failing
that, by the cache. -/
def locally_resolved (trans_active : Bool)
    (txget cache_hit : StKey → Option DbRecord) (k : StKey) : Bool :=
  (if trans_active then txget k else none).isSome || (cache_hit k).isSome

/-- Outcome of `StorageManager::tombstone_value_states`: the key list sent
to `batch_get` (if any), the record list sent to `batch_set` (if any), and
the number of increments of the tombstone metric. -/
structure TombstoneOutcome where
  batch_get_call : Option (List ValueStateKey)
  batch_set_call : Option (List DbRecord)
  tombstone_metric : Nat
  deriving Repr

/-- The record synthesized by the loop body of `tombstone_value_states`
(manager.rs lines 383-389): a copy of the retrieved `ValueState` with
`plaintext_val` replaced by the `TOMBSTONE` constant and `epoch`, `label`,
`username`, `version` carried over unchanged. -/
def tombstone_record (value_state : ValueState) : DbRecord :=
  DbRecord.ValueState
    { epoch := value_state.epoch
      label := value_state.label
      plaintext_val := TOMBSTONE
      username := value_state.username
      version := value_state.version }

/-- Translation of `StorageManager::tombstone_value_states` (manager.rs
lines 374-399).  `retrieved` is the record list `batch_get` produced for the
keys; each `ValueState` among them is rewritten by `tombstone_record`, and
the rewritten batch is written back only when non-empty, incrementing the
tombstone metric once. -/
def tombstone_value_states (keys : List ValueStateKey)
    (retrieved : List DbRecord) : TombstoneOutcome :=
  if keys.isEmpty then
    { batch_get_call := none, batch_set_call := none, tombstone_metric := 0 }
  else
    let new_data := retrieved.foldl (fun acc record =>
      match record with
      | DbRecord.ValueState value_state => acc ++ [tombstone_record value_state]
      | _ => acc) []
    if new_data.isEmpty then
      { batch_get_call := some keys, batch_set_call := none
        tombstone_metric := 0 }
    else
      { batch_get_call := some keys, batch_set_call := some new_data
        tombstone_metric := 1 }

/-- Translation of `StorageManager::get_user_data` (manager.rs lines
450-495).  `db_result` is the backing store's `get_user_data` answer
(`NotFound` folded to `none`); `transaction_records` is the buffer's staged
state list for the user (`get_users_data` entry, empty when absent).  With a
transaction active, persisted states are keyed by epoch and staged states
overwrite or extend them. -/
def get_user_data (db_result : Except StorageError KeyData)
    (trans_active : Bool) (transaction_records : List ValueState) :
    Except StorageError KeyData :=
  let folded : Except StorageError (Option KeyData) :=
    match db_result with
    | .error (.NotFound _) => .ok none
    | .ok something => .ok (some something)
    | .error other => .error other
  match folded with
  | .error e => .error e
  | .ok maybe_db_data =>
    if trans_active then
      let map : List (Nat × ValueState) :=
        match maybe_db_data with
        | some data =>
            data.states.foldl (fun m state => mapInsert m state.epoch state) []
        | none => []
      let map' := transaction_records.foldl
        (fun m record => mapInsert m record.epoch record) map
      .ok { states := map'.map Prod.snd }
    else
      match maybe_db_data with
      | some data => .ok data
      | none => .error (.NotFound "ValueState records")

/-- The bulk-version mapping returned by `get_user_state_versions`:
username to `(epoch, value)` pair. -/
abbrev VersionMap := List (AkdLabel × (Nat × AkdValue))

/-- Loop body of the transaction merge in
`StorageManager::get_user_state_versions` (manager.rs lines 516-529): an
existing entry is overwritten with `(db epoch, transaction plaintext_val)`
when `compare_db_and_transaction_records` selects the transaction record,
and a missing entry is inserted as
`(transaction epoch, transaction plaintext_val)`. -/
def versions_merge_step (flag : ValueStateRetrievalFlag) (d : VersionMap)
    (lv : AkdLabel × ValueState) : VersionMap :=
  let label := lv.1
  let value_state := lv.2
  match mapGet d label with
  | some (epoch, _) =>
    match compare_db_and_transaction_records epoch value_state flag with
    | some updated_record =>
        mapInsert d label (epoch, updated_record.plaintext_val)
    | none => d
  | none => mapInsert d label (value_state.epoch, value_state.plaintext_val)

/-- Translation of `StorageManager::get_user_state_versions` (manager.rs
lines 498-533).  `data` is the backing store's mapping; with a transaction
active, each staged per-user state from `transaction.get_users_states` is
merged in by `versions_merge_step`. -/
def get_user_state_versions (data : VersionMap) (trans_active : Bool)
    (transaction_records : List (AkdLabel × ValueState))
    (flag : ValueStateRetrievalFlag) : VersionMap :=
  if trans_active then
    transaction_records.foldl (versions_merge_step flag) data
  else data

/-! Theorems. -/

/-- Whenever `compare_db_and_transaction_records` selects a record, that
record is the transaction record itself. -/
theorem compare_isSome_eq (e : Nat) (ts : ValueState)
    (flag : ValueStateRetrievalFlag)
    (h : (compare_db_and_transaction_records e ts flag).isSome = true) :
    compare_db_and_transaction_records e ts flag = some ts := by
  cases flag with
  | SpecificVersion v => rfl
  | SpecificEpoch e2 => rfl
  | LeqEpoch e2 =>
      by_cases hc : ts.epoch ≥ e <;>
        simp [compare_db_and_transaction_records, hc] at h ⊢
  | MaxEpoch =>
      by_cases hc : ts.epoch ≥ e <;>
        simp [compare_db_and_transaction_records, hc] at h ⊢
  | MinEpoch =>
      by_cases hc : ts.epoch ≤ e <;>
        simp [compare_db_and_transaction_records, hc] at h ⊢

/-- Claim C2: in `get_user_state` with a transaction active and both a
persisted (`db`) and a staged (`tx`) record present, `LeqEpoch`/`MaxEpoch`
return the record of epoch `max(db.epoch, tx.epoch)` with ties to `tx`,
`MinEpoch` returns the record of epoch `min(db.epoch, tx.epoch)` with ties
to `tx`, and `SpecificVersion`/`SpecificEpoch` return `tx` ignoring `db`. -/
theorem C2_user_state_merge (db tx : ValueState) (cp : Bool) :
    (∀ e, (get_user_state (.ok db) true (some tx) (.LeqEpoch e) cp).result
        = .ok (if db.epoch ≤ tx.epoch then tx else db)) ∧
    ((get_user_state (.ok db) true (some tx) .MaxEpoch cp).result
        = .ok (if db.epoch ≤ tx.epoch then tx else db)) ∧
    ((get_user_state (.ok db) true (some tx) .MinEpoch cp).result
        = .ok (if tx.epoch ≤ db.epoch then tx else db)) ∧
    (∀ v, (get_user_state (.ok db) true (some tx) (.SpecificVersion v) cp).result
        = .ok tx) ∧
    (∀ e, (get_user_state (.ok db) true (some tx) (.SpecificEpoch e) cp).result
        = .ok tx) ∧
    ((if db.epoch ≤ tx.epoch then tx else db).epoch = max db.epoch tx.epoch) ∧
    ((if tx.epoch ≤ db.epoch then tx else db).epoch = min db.epoch tx.epoch) := by
  refine ⟨?_, ?_, ?_, ?_, ?_, ?_, ?_⟩
  · intro e
    by_cases h : db.epoch ≤ tx.epoch <;>
      simp [get_user_state, compare_db_and_transaction_records, ge_iff_le, h]
  · by_cases h : db.epoch ≤ tx.epoch <;>
      simp [get_user_state, compare_db_and_transaction_records, ge_iff_le, h]
  · by_cases h : tx.epoch ≤ db.epoch <;>
      simp [get_user_state, compare_db_and_transaction_records, h]
  · intro v
    simp [get_user_state, compare_db_and_transaction_records]
  · intro e
    simp [get_user_state, compare_db_and_transaction_records]
  · split <;> omega
  · split <;> omega

/-- Claim C4: a non-empty drained commit batch whose last record is not the
directory-metadata (`Azks`) record makes `commit_transaction` fail with a
`Transaction` error, without any cache `batch_put` or backing-store
`batch_set`. -/
theorem C4_commit_malformed (records : List DbRecord) (r : DbRecord)
    (cp : Bool) (dbresp : Except StorageError Unit)
    (hlast : records.getLast? = some r) (hr : r.isAzks = false) :
    (∃ m, (commit_transaction (.ok records) cp dbresp).result
        = .error (.Transaction m)) ∧
    (commit_transaction (.ok records) cp dbresp).cache_batch_put = none ∧
    (commit_transaction (.ok records) cp dbresp).db_batch_set = none := by
  have hne : records.isEmpty = false := by
    cases records with
    | nil => simp at hlast
    | cons a l => rfl
  have hred : commit_transaction (.ok records) cp dbresp =
      { result := .error (.Transaction
          "The last record in the transaction log is NOT an Azks record")
        cache_batch_put := none, db_batch_set := none
        cache_enable_clean := cp, batch_set_metric := 0 } := by
    cases r with
    | Azks e => exact absurd hr (by simp [DbRecord.isAzks])
    | ValueState vs => simp [commit_transaction, hne, hlast]
    | TreeNode d => simp [commit_transaction, hne, hlast]
  rw [hred]
  exact ⟨⟨_, rfl⟩, rfl, rfl⟩

/-- Witness for `C4_commit_malformed` at a one-record batch whose last (and
only) record is a tree node. -/
theorem C4_commit_malformed_witness :
    (∃ m, (commit_transaction (.ok [DbRecord.TreeNode 0]) true (.ok ())).result
        = .error (.Transaction m)) ∧
    (commit_transaction (.ok [DbRecord.TreeNode 0]) true
        (.ok ())).cache_batch_put = none ∧
    (commit_transaction (.ok [DbRecord.TreeNode 0]) true
        (.ok ())).db_batch_set = none :=
  C4_commit_malformed [DbRecord.TreeNode 0] (DbRecord.TreeNode 0) true
    (.ok ()) rfl rfl

/-- Claim C5: committing with no staged records succeeds and performs no
cache `batch_put` and no backing-store `batch_set`. -/
theorem C5_commit_empty (cp : Bool) (dbresp : Except StorageError Unit) :
    (commit_transaction (.ok []) cp dbresp).result = .ok () ∧
    (commit_transaction (.ok []) cp dbresp).cache_batch_put = none ∧
    (commit_transaction (.ok []) cp dbresp).db_batch_set = none :=
  ⟨rfl, rfl, rfl⟩

/-- Claim C6: with a transaction active, `get` returns the staged value for
a key regardless of the cache's and the backing store's answers. -/
theorem C6_get_staged (staged : List (StKey × DbRecord)) (k : StKey)
    (v : DbRecord) (cache_hit : Option DbRecord)
    (db_result : Except StorageError DbRecord)
    (h : mapGet staged k = some v) :
    get { active := true, staged := staged } k cache_hit db_result = .ok v := by
  simp [get, Txn.get, h]

/-- Witness for `C6_get_staged`: the staged tree node wins over a cache miss
and a store error. -/
theorem C6_get_staged_witness :
    get { active := true, staged := [(0, DbRecord.TreeNode 7)] } 0 none
      (.error (.NotFound "x")) = .ok (DbRecord.TreeNode 7) :=
  C6_get_staged [(0, DbRecord.TreeNode 7)] 0 (DbRecord.TreeNode 7) none
    (.error (.NotFound "x")) rfl

/-- Claim C9: with no transaction active, `get_user_state` returns the
persisted state when the store finds one, reports `NotFound` (rebuilt from
the absent sentinel) when the store reported `NotFound`, and propagates any
other store error unchanged. -/
theorem C9_user_state_inactive (st : ValueState) (s : String)
    (tx : Option ValueState) (flag : ValueStateRetrievalFlag) (cp : Bool)
    (err : StorageError) (herr : err.isNotFound = false) :
    ((get_user_state (.ok st) false tx flag cp).result = .ok st) ∧
    (∃ m, (get_user_state (.error (.NotFound s)) false tx flag cp).result
        = .error (.NotFound m)) ∧
    ((get_user_state (.error err) false tx flag cp).result = .error err) := by
  refine ⟨?_, ⟨"ValueState", ?_⟩, ?_⟩
  · simp [get_user_state]
  · simp [get_user_state]
  · cases err <;> simp_all [get_user_state, StorageError.isNotFound]

/-- Witness for `C9_user_state_inactive` at a concrete state and a
`Connection` error. -/
theorem C9_user_state_inactive_witness :
    ((get_user_state (.ok ⟨1, 1, 0, [1], [0]⟩) false none .MaxEpoch
        false).result = .ok ⟨1, 1, 0, [1], [0]⟩) ∧
    (∃ m, (get_user_state (.error (.NotFound "x")) false none .MaxEpoch
        false).result = .error (.NotFound m)) ∧
    ((get_user_state (.error (.Connection "c")) false none .MaxEpoch
        false).result = .error (.Connection "c")) :=
  C9_user_state_inactive ⟨1, 1, 0, [1], [0]⟩ "x" none .MaxEpoch false
    (.Connection "c") rfl

/-- Claim C10: with a transaction active, `get_user_data` never reports
`NotFound`: a store `NotFound` with no staged states yields an empty
`KeyData`, and any error it does return is not `NotFound`; with no
transaction the same absent-everywhere situation reports `NotFound`. -/
theorem C10_user_data_active (s : String) (recs : List ValueState)
    (db : Except StorageError KeyData) (e : StorageError)
    (h : get_user_data db true recs = .error e) :
    e.isNotFound = false ∧
    (get_user_data (.error (.NotFound s)) true [] = .ok { states := [] }) ∧
    (∃ m, get_user_data (.error (.NotFound s)) false recs
        = .error (.NotFound m)) := by
  refine ⟨?_, rfl, ⟨"ValueState records", rfl⟩⟩
  cases db with
  | ok d => simp [get_user_data] at h
  | error err =>
      cases err with
      | NotFound m => simp [get_user_data] at h
      | Transaction m =>
          simp [get_user_data] at h
          rw [← h]
          rfl
      | Connection m =>
          simp [get_user_data] at h
          rw [← h]
          rfl
      | Other m =>
          simp [get_user_data] at h
          rw [← h]
          rfl
      | SerializationError =>
          simp [get_user_data] at h
          rw [← h]
          rfl

/-- Witness for `C10_user_data_active` at a propagated `Connection`
error. -/
theorem C10_user_data_active_witness :
    ((StorageError.Connection "c").isNotFound = false) ∧
    (get_user_data (.error (.NotFound "x")) true [] = .ok { states := [] }) ∧
    (∃ m, get_user_data (.error (.NotFound "x")) false []
        = .error (.NotFound m)) :=
  C10_user_data_active "x" [] (.error (.Connection "c")) (.Connection "c") rfl

/-- A merge step for a label different from `u` leaves the entry at `u`
unchanged. -/
theorem versions_merge_step_get_ne (flag : ValueStateRetrievalFlag)
    (d : VersionMap) (lv : AkdLabel × ValueState) (u : AkdLabel)
    (h : lv.1 ≠ u) :
    mapGet (versions_merge_step flag d lv) u = mapGet d u := by
  simp only [versions_merge_step]
  cases hg : mapGet d lv.1 with
  | none => simp [hg, h]
  | some p =>
      obtain ⟨e, v⟩ := p
      cases hc : compare_db_and_transaction_records e lv.2 flag with
      | none => simp [hg, hc]
      | some r => simp [hg, hc, h]

/-- The merge step at `(u, ts)` reads `d` only through the entry at `u`. -/
theorem versions_merge_step_get_congr (flag : ValueStateRetrievalFlag)
    (d d' : VersionMap) (u : AkdLabel) (ts : ValueState)
    (hg : mapGet d' u = mapGet d u) :
    mapGet (versions_merge_step flag d' (u, ts)) u
      = mapGet (versions_merge_step flag d (u, ts)) u := by
  simp only [versions_merge_step]
  cases hgd : mapGet d u with
  | none => simp [hg, hgd]
  | some p =>
      obtain ⟨e, v⟩ := p
      cases hc : compare_db_and_transaction_records e ts flag with
      | none => simp [hg, hgd, hc]
      | some r => simp [hg, hgd, hc]

/-- Folding the merge over records none of which carries label `u` leaves
the entry at `u` unchanged. -/
theorem versions_fold_get_of_not_mem (flag : ValueStateRetrievalFlag)
    (trs : List (AkdLabel × ValueState)) (d : VersionMap) (u : AkdLabel)
    (h : u ∉ trs.map Prod.fst) :
    mapGet (trs.foldl (versions_merge_step flag) d) u = mapGet d u := by
  induction trs generalizing d with
  | nil => rfl
  | cons hd tl ih =>
      simp only [List.map_cons, List.mem_cons, not_or] at h
      rw [List.foldl_cons, ih _ h.2,
        versions_merge_step_get_ne _ _ _ _ (fun he => h.1 he.symm)]

/-- When the staged records carry pairwise-distinct labels and `(u, ts)` is
among them, the folded merge behaves at `u` like the single step for
`(u, ts)`. -/
theorem versions_fold_get (flag : ValueStateRetrievalFlag)
    (trs : List (AkdLabel × ValueState)) (d : VersionMap) (u : AkdLabel)
    (ts : ValueState) (hnd : (trs.map Prod.fst).Nodup)
    (hmem : (u, ts) ∈ trs) :
    mapGet (trs.foldl (versions_merge_step flag) d) u
      = mapGet (versions_merge_step flag d (u, ts)) u := by
  induction trs generalizing d with
  | nil => cases hmem
  | cons hd tl ih =>
      rw [List.foldl_cons]
      simp only [List.map_cons, List.nodup_cons] at hnd
      rcases List.mem_cons.mp hmem with heq | hmem'
      · subst heq
        exact versions_fold_get_of_not_mem flag tl _ u hnd.1
      · have hu : u ∈ tl.map Prod.fst := List.mem_map.mpr ⟨(u, ts), hmem', rfl⟩
        have hne : hd.1 ≠ u := fun h => hnd.1 (h ▸ hu)
        rw [ih _ hnd.2 hmem']
        exact versions_merge_step_get_congr flag d _ u ts
          (versions_merge_step_get_ne flag d hd u hne)

/-- Counterexample to claim C1 as stated: with a persisted entry
`([0] ↦ (epoch 5, [1]))` and a staged record of epoch 7 and value `[2]`
under `MaxEpoch`, the override table selects the transaction record, yet
the resulting entry is not the transaction pair `(7, [2])` (the code keeps
the persisted epoch and writes `(5, [2])`). -/
theorem C1_counterexample :
    (compare_db_and_transaction_records 5 ⟨7, 3, 0, [2], [0]⟩
        .MaxEpoch).isSome = true ∧
    mapGet (get_user_state_versions [([0], (5, [1]))] true
        [([0], ⟨7, 3, 0, [2], [0]⟩)] .MaxEpoch) [0]
      ≠ some ((7 : Nat), ([2] : AkdValue)) := by
  decide

/-- Claim C1 (amended): in `get_user_state_versions` with a transaction
active, for a username `u` staged as `(u, ts)` (staged labels are pairwise
distinct, as they come from a map): when a persisted entry `(e, v)` exists
and the flag-directed override table selects the transaction state, the
entry is replaced by `(e, ts.plaintext_val)` — the persisted epoch paired
with the transaction value — and when no persisted entry exists the
transaction pair `(ts.epoch, ts.plaintext_val)` is inserted. -/
theorem C1_versions_merge (data : VersionMap)
    (trs : List (AkdLabel × ValueState)) (flag : ValueStateRetrievalFlag)
    (u : AkdLabel) (ts : ValueState)
    (hnd : (trs.map Prod.fst).Nodup) (hmem : (u, ts) ∈ trs) :
    (∀ e v, mapGet data u = some (e, v) →
        (compare_db_and_transaction_records e ts flag).isSome = true →
        mapGet (get_user_state_versions data true trs flag) u
          = some (e, ts.plaintext_val)) ∧
    (mapGet data u = none →
        mapGet (get_user_state_versions data true trs flag) u
          = some (ts.epoch, ts.plaintext_val)) := by
  have hfold : mapGet (get_user_state_versions data true trs flag) u
      = mapGet (versions_merge_step flag data (u, ts)) u :=
    versions_fold_get flag trs data u ts hnd hmem
  constructor
  · intro e v he hs
    rw [hfold]
    have hc := compare_isSome_eq e ts flag hs
    simp [versions_merge_step, he, hc]
  · intro he
    rw [hfold]
    simp [versions_merge_step, he]

/-- Witness for `C1_versions_merge` at the inputs of the counterexample:
the merged entry is `(5, [2])`. -/
theorem C1_versions_merge_witness :
    mapGet (get_user_state_versions [([0], (5, [1]))] true
        [([0], ⟨7, 3, 0, [2], [0]⟩)] .MaxEpoch) [0] = some (5, [2]) :=
  (C1_versions_merge [([0], (5, [1]))] [([0], ⟨7, 3, 0, [2], [0]⟩)]
      .MaxEpoch [0] ⟨7, 3, 0, [2], [0]⟩ (by decide) (by decide)).1
    5 [1] rfl rfl

/-- The initial mediator state (fresh transaction buffer, cleaning enabled)
satisfies the cleaning invariant. -/
theorem CleanInvariant_init :
    CleanInvariant { txn := { active := false, staged := [] }
                     cache := some { can_clean := true } } := by
  intro h
  exact absurd h (by decide)

/-- `begin_transaction` establishes the cleaning invariant. -/
theorem CleanInvariant_begin (s : ManagerState) :
    CleanInvariant (begin_transaction s).2 := by
  obtain ⟨⟨active, staged⟩, cache⟩ := s
  cases cache with
  | none => intro _; trivial
  | some c0 => intro _; rfl

/-- `commit_transaction` preserves the cleaning invariant. -/
theorem CleanInvariant_commit (s : ManagerState) (h : CleanInvariant s) :
    CleanInvariant (commit_transaction_state s) := by
  unfold commit_transaction_state
  split
  · intro hcontra
    exact Bool.noConfusion hcontra
  · exact h

/-- `rollback_transaction` preserves the cleaning invariant. -/
theorem CleanInvariant_rollback (s : ManagerState) (h : CleanInvariant s) :
    CleanInvariant (rollback_transaction_state s) := by
  unfold rollback_transaction_state
  split
  · intro hcontra
    exact Bool.noConfusion hcontra
  · exact h

/-- Claim C3: `begin_transaction` returns exactly the transaction buffer's
begin flag (true on Idle-to-Active, false when already active); in any
lifecycle-reachable state (cleaning already disabled while a transaction is
active), a nested begin returning false leaves the cache cleaner's state
unchanged, and a begin returning true pauses cleaning. -/
theorem C3_begin_transaction (s : ManagerState) (hinv : CleanInvariant s) :
    (begin_transaction s).1 = s.txn.begin.1 ∧
    (begin_transaction s).1 = !s.txn.active ∧
    ((begin_transaction s).1 = false → (begin_transaction s).2.cache = s.cache) ∧
    ((begin_transaction s).1 = true →
        ∀ c, (begin_transaction s).2.cache = some c → c.can_clean = false) := by
  obtain ⟨⟨active, staged⟩, cache⟩ := s
  cases active with
  | false =>
      refine ⟨rfl, rfl, ?_, ?_⟩
      · intro h
        exact absurd h (by simp [begin_transaction, Txn.begin])
      · intro _ c hc
        cases cache with
        | none => exact Option.noConfusion hc
        | some c0 =>
            have hcc : c = c0.disable_clean := by
              simpa [begin_transaction, Txn.begin] using hc.symm
            rw [hcc]
            rfl
  | true =>
      cases cache with
      | none =>
          exact ⟨rfl, rfl, fun _ => rfl, fun h => Bool.noConfusion h⟩
      | some c0 =>
          obtain ⟨b⟩ := c0
          have hb : b = false := hinv rfl
          subst hb
          exact ⟨rfl, rfl, fun _ => rfl, fun h => Bool.noConfusion h⟩

/-- Witness for `C3_begin_transaction` at an active-transaction state with
cleaning already disabled: the nested begin returns false and the cleaner
state is unchanged. -/
theorem C3_begin_transaction_witness :
    ((begin_transaction ⟨⟨true, []⟩, some ⟨false⟩⟩).1
        = (Txn.begin ⟨true, []⟩).1) ∧
    ((begin_transaction ⟨⟨true, []⟩, some ⟨false⟩⟩).1 = !true) ∧
    ((begin_transaction ⟨⟨true, []⟩, some ⟨false⟩⟩).1 = false →
        (begin_transaction ⟨⟨true, []⟩, some ⟨false⟩⟩).2.cache
          = some ⟨false⟩) ∧
    ((begin_transaction ⟨⟨true, []⟩, some ⟨false⟩⟩).1 = true →
        ∀ c, (begin_transaction ⟨⟨true, []⟩, some ⟨false⟩⟩).2.cache = some c →
          c.can_clean = false) :=
  C3_begin_transaction ⟨⟨true, []⟩, some ⟨false⟩⟩ (fun _ => rfl)

/-- The residual key set of the `batch_get` loop stays duplicate-free. -/
theorem batch_get_loop_residual_nodup (ta : Bool)
    (t c : StKey → Option DbRecord) (ids : List StKey)
    (map : List DbRecord) (ks : List StKey) (hnd : ks.Nodup) :
    ((batch_get_loop ta t c ids map ks).2).Nodup := by
  induction ids generalizing map ks hnd with
  | nil => exact hnd
  | cons id rest ih =>
      simp only [batch_get_loop]
      cases ht : (if ta then t id else none) with
      | some r => exact ih _ _ (hnd.erase _)
      | none =>
          cases hc : c id with
          | some r => exact ih _ _ (hnd.erase _)
          | none => exact ih _ _ hnd

/-- Membership in the residual key set of the `batch_get` loop: a key
survives iff it was in the seed set and is not a locally resolved requested
key. -/
theorem batch_get_loop_residual_mem (ta : Bool)
    (t c : StKey → Option DbRecord) (ids : List StKey)
    (map : List DbRecord) (ks : List StKey) (hnd : ks.Nodup) (k : StKey) :
    k ∈ (batch_get_loop ta t c ids map ks).2 ↔
      k ∈ ks ∧ ¬(k ∈ ids ∧ locally_resolved ta t c k = true) := by
  induction ids generalizing map ks hnd with
  | nil => simp [batch_get_loop]
  | cons id rest ih =>
      simp only [batch_get_loop]
      cases ht : (if ta then t id else none) with
      | some r =>
          have hres : locally_resolved ta t c id = true := by
            simp [locally_resolved, ht]
          rw [ih _ _ (hnd.erase _), hnd.mem_erase_iff]
          by_cases hk : k = id
          · subst hk
            simp [hres]
          · simp only [List.mem_cons]
            constructor
            · rintro ⟨⟨_, hks⟩, hnr⟩
              exact ⟨hks, by
                rintro ⟨hidk | hrest, hrk⟩
                · exact hk hidk
                · exact hnr ⟨hrest, hrk⟩⟩
            · rintro ⟨hks, hnr⟩
              exact ⟨⟨hk, hks⟩, fun hh => hnr ⟨Or.inr hh.1, hh.2⟩⟩
      | none =>
          cases hc : c id with
          | some r =>
              have hres : locally_resolved ta t c id = true := by
                simp [locally_resolved, ht, hc]
              rw [ih _ _ (hnd.erase _), hnd.mem_erase_iff]
              by_cases hk : k = id
              · subst hk
                simp [hres]
              · simp only [List.mem_cons]
                constructor
                · rintro ⟨⟨_, hks⟩, hnr⟩
                  exact ⟨hks, by
                    rintro ⟨hidk | hrest, hrk⟩
                    · exact hk hidk
                    · exact hnr ⟨hrest, hrk⟩⟩
                · rintro ⟨hks, hnr⟩
                  exact ⟨⟨hk, hks⟩, fun hh => hnr ⟨Or.inr hh.1, hh.2⟩⟩
          | none =>
              have hres : locally_resolved ta t c id = false := by
                simp [locally_resolved, ht, hc]
              rw [ih _ _ hnd]
              by_cases hk : k = id
              · subst hk
                simp [hres]
              · simp only [List.mem_cons]
                constructor
                · rintro ⟨hks, hnr⟩
                  exact ⟨hks, by
                    rintro ⟨hidk | hrest, hrk⟩
                    · exact hk hidk
                    · exact hnr ⟨hrest, hrk⟩⟩
                · rintro ⟨hks, hnr⟩
                  exact ⟨hks, fun hh => hnr ⟨Or.inr hh.1, hh.2⟩⟩

/-- Claim C7: `batch_get` issues at most one backing-store call; that call's
key set is duplicate-free and consists exactly of the requested keys that
neither the transaction buffer nor the cache resolved; when every requested
key is resolved locally no backing-store call is made. -/
theorem C7_batch_get (ta : Bool) (t c : StKey → Option DbRecord)
    (ids : List StKey) :
    (batch_get_db_calls ta t c ids).length ≤ 1 ∧
    (∀ call, call ∈ batch_get_db_calls ta t c ids →
        call.Nodup ∧
          ∀ k, k ∈ call ↔ (k ∈ ids ∧ locally_resolved ta t c k = false)) ∧
    ((∀ k, k ∈ ids → locally_resolved ta t c k = true) →
        batch_get_db_calls ta t c ids = []) := by
  cases ids with
  | nil => simp [batch_get_db_calls]
  | cons a l =>
      have hnd0 : (a :: l).dedup.Nodup := List.nodup_dedup _
      have hmemr : ∀ k, k ∈ (batch_get_loop ta t c (a :: l) [] (a :: l).dedup).2 ↔
          k ∈ (a :: l) ∧ locally_resolved ta t c k = false := by
        intro k
        rw [batch_get_loop_residual_mem ta t c (a :: l) [] _ hnd0 k]
        constructor
        · rintro ⟨h1, h2⟩
          have hk : k ∈ a :: l := List.mem_dedup.mp h1
          refine ⟨hk, ?_⟩
          cases hb : locally_resolved ta t c k with
          | true => exact absurd ⟨hk, hb⟩ h2
          | false => rfl
        · rintro ⟨hk, hf⟩
          refine ⟨List.mem_dedup.mpr hk, ?_⟩
          rintro ⟨_, htrue⟩
          rw [hf] at htrue
          exact Bool.noConfusion htrue
      have hndr : (batch_get_loop ta t c (a :: l) [] (a :: l).dedup).2.Nodup :=
        batch_get_loop_residual_nodup ta t c (a :: l) [] _ hnd0
      have hcalls : batch_get_db_calls ta t c (a :: l)
          = if (batch_get_loop ta t c (a :: l) [] (a :: l).dedup).2.isEmpty
            then []
            else [(batch_get_loop ta t c (a :: l) [] (a :: l).dedup).2] := by
        simp [batch_get_db_calls]
      rw [hcalls]
      refine ⟨?_, ?_, ?_⟩
      · split <;> simp
      · intro call hcall
        split at hcall
        · exact absurd hcall (List.not_mem_nil _)
        · rw [List.mem_singleton] at hcall
          subst hcall
          exact ⟨hndr, hmemr⟩
      · intro hall
        have hresnil : (batch_get_loop ta t c (a :: l) [] (a :: l).dedup).2
            = [] := by
          apply List.eq_nil_iff_forall_not_mem.mpr
          intro k hk
          obtain ⟨h1, h2⟩ := (hmemr k).mp hk
          have h3 := hall k h1
          rw [h3] at h2
          exact Bool.noConfusion h2
        rw [hresnil]
        rfl

/-- Witness for `C7_batch_get`: a request with a duplicated key and nothing
resolved locally issues one call whose key set is the deduplicated input. -/
theorem C7_batch_get_witness :
    ((batch_get_db_calls false (fun _ => none) (fun _ => none)
        [0, 0, 1]).length ≤ 1) ∧
    (([0, 1] : List StKey).Nodup ∧
      ((0 : StKey) ∈ ([0, 1] : List StKey) ↔
        ((0 : StKey) ∈ ([0, 0, 1] : List StKey) ∧
          locally_resolved false (fun _ => none) (fun _ => none) 0
            = false))) := by
  have h := (C7_batch_get false (fun _ => none) (fun _ => none)
      [0, 0, 1]).2.1 [0, 1] (by decide)
  exact ⟨(C7_batch_get false (fun _ => none) (fun _ => none) [0, 0, 1]).1,
    h.1, h.2 0⟩

/-- The tombstone loop builds exactly the `filterMap` of retrieved
`ValueState` records through `tombstone_record`. -/
theorem tombstone_fold (l : List DbRecord) (acc : List DbRecord) :
    l.foldl (fun acc record =>
      match record with
      | DbRecord.ValueState value_state => acc ++ [tombstone_record value_state]
      | _ => acc) acc
    = acc ++ l.filterMap (fun record =>
      match record with
      | DbRecord.ValueState value_state => some (tombstone_record value_state)
      | _ => none) := by
  induction l generalizing acc with
  | nil => simp
  | cons hd tl ih =>
      cases hd with
      | Azks e => simp [ih]
      | ValueState vs => simp [ih]
      | TreeNode d => simp [ih]

/-- Counterexample to claim C8 as stated: a non-empty key list for which no
`ValueState` record is retrieved increments the tombstone metric zero
times, not once per invocation. -/
theorem C8_counterexample :
    (([(([0] : AkdLabel), 1)] : List ValueStateKey) ≠ []) ∧
    (tombstone_value_states [([0], 1)] []).tombstone_metric = 0 := by
  decide

/-- Claim C8 (amended): every record written back by
`tombstone_value_states` is the retrieved `ValueState` with
`plaintext_val` replaced by the `TOMBSTONE` constant and `epoch`,
`version`, `label`, `username` unchanged (the written batch is exactly the
rewritten retrieved records); the tombstone metric is incremented at most
once per invocation — exactly once when a write-back occurs and zero times
otherwise, never once per record; and `tombstone_value_states []` is a
no-op issuing no read and no write. -/
theorem C8_tombstone (keys : List ValueStateKey) (retrieved : List DbRecord) :
    (∀ ws, (tombstone_value_states keys retrieved).batch_set_call = some ws →
        ws = retrieved.filterMap (fun record =>
          match record with
          | DbRecord.ValueState value_state =>
              some (tombstone_record value_state)
          | _ => none)) ∧
    (tombstone_value_states keys retrieved).tombstone_metric ≤ 1 ∧
    ((tombstone_value_states keys retrieved).batch_set_call = none →
        (tombstone_value_states keys retrieved).tombstone_metric = 0) ∧
    (∀ ws, (tombstone_value_states keys retrieved).batch_set_call = some ws →
        (tombstone_value_states keys retrieved).tombstone_metric = 1) ∧
    (tombstone_value_states [] retrieved).batch_get_call = none ∧
    (tombstone_value_states [] retrieved).batch_set_call = none ∧
    (tombstone_value_states [] retrieved).tombstone_metric = 0 := by
  have hnew : tombstone_value_states keys retrieved =
      if keys.isEmpty then
        { batch_get_call := none, batch_set_call := none
          tombstone_metric := 0 }
      else if (retrieved.filterMap (fun record =>
          match record with
          | DbRecord.ValueState value_state =>
              some (tombstone_record value_state)
          | _ => none)).isEmpty then
        { batch_get_call := some keys, batch_set_call := none
          tombstone_metric := 0 }
      else
        { batch_get_call := some keys
          batch_set_call := some (retrieved.filterMap (fun record =>
            match record with
            | DbRecord.ValueState value_state =>
                some (tombstone_record value_state)
            | _ => none))
          tombstone_metric := 1 } := by
    simp only [tombstone_value_states, tombstone_fold, List.nil_append]
  by_cases hk : keys.isEmpty = true
  · rw [if_pos hk] at hnew
    refine ⟨?_, ?_, ?_, ?_, rfl, rfl, rfl⟩ <;> simp [hnew]
  · rw [if_neg hk] at hnew
    by_cases hn : (retrieved.filterMap (fun record =>
        match record with
        | DbRecord.ValueState value_state =>
            some (tombstone_record value_state)
        | _ => none)).isEmpty = true
    · rw [if_pos hn] at hnew
      refine ⟨?_, ?_, ?_, ?_, rfl, rfl, rfl⟩ <;> simp [hnew]
    · rw [if_neg hn] at hnew
      refine ⟨?_, ?_, ?_, ?_, rfl, rfl, rfl⟩ <;> simp [hnew]

/-- Witness for `C8_tombstone`: tombstoning one retrieved value state
increments the metric exactly once. -/
theorem C8_tombstone_witness :
    (tombstone_value_states [([0], 1)]
        [DbRecord.ValueState ⟨5, 1, 0, [9], [0]⟩]).tombstone_metric = 1 :=
  (C8_tombstone [([0], 1)] [DbRecord.ValueState ⟨5, 1, 0, [9], [0]⟩]).2.2.2.1
    [DbRecord.ValueState ⟨5, 1, 0, [], [0]⟩] rfl

end Akd
